import Mathlib

/-!
Shallow embedding of the temporal-fusion text rendering engine
(`src/index.ts` of `temporal-fusion-text`): configuration merging,
glyph layout with auto-wrap, the even/odd double-buffer compositor,
the static fallback painter, the mode decision of `run`, and the
per-tick swap-loop step.  Pixel coordinates and durations are modelled
as exact rationals; the host's glyph-advance measurement is an explicit
function parameter.
-/

/-- Caller-supplied partial options (`FusionOptions` in the source): every
field optional. -/
structure FusionOptions where
  font : Option String := none
  color : Option String := none
  opacity : Option ℚ := none
  minSafeHz : Option ℚ := none
  marginX : Option ℚ := none
  marginY : Option ℚ := none
  lineHeight : Option ℚ := none
  deriving Repr, DecidableEq

/-- Fully-resolved options (`InternalOptions = Required<FusionOptions>`). -/
structure InternalOptions where
  font : String
  color : String
  opacity : ℚ
  minSafeHz : ℚ
  marginX : ℚ
  marginY : ℚ
  lineHeight : ℚ
  deriving Repr, DecidableEq

/-- The `DEFAULT_OPTIONS` constant of the source. -/
def DEFAULT_OPTIONS : InternalOptions where
  font := "32px Segoe UI, sans-serif"
  color := "#808080"
  opacity := 55/100
  minSafeHz := 120
  marginX := 40
  marginY := 36
  lineHeight := 48

/-- The constructor's `{ ...DEFAULT_OPTIONS, ...opts }` spread: each field
present in `opts` overrides the default, each absent field keeps it. -/
def resolveOptions (o : FusionOptions) : InternalOptions where
  font := o.font.getD DEFAULT_OPTIONS.font
  color := o.color.getD DEFAULT_OPTIONS.color
  opacity := o.opacity.getD DEFAULT_OPTIONS.opacity
  minSafeHz := o.minSafeHz.getD DEFAULT_OPTIONS.minSafeHz
  marginX := o.marginX.getD DEFAULT_OPTIONS.marginX
  marginY := o.marginY.getD DEFAULT_OPTIONS.marginY
  lineHeight := o.lineHeight.getD DEFAULT_OPTIONS.lineHeight

/-- One positioned glyph of the layout: `{ ch, x, y }`. -/
structure Glyph where
  ch : Char
  x : ℚ
  y : ℚ
  deriving Repr, DecidableEq

/-- Cursor-passing loop body of `computeLayout`: iterates the characters,
handling `"\n"` (carriage return plus line feed of the cursor), the
wrap-before-place check `x + w > maxX`, and the advance `x += w + 2`.
`measure` is the host's `measureText(ch).width` capability. -/
def layoutGo (opts : InternalOptions) (measure : Char → ℚ) (maxX : ℚ) :
    List Char → ℚ → ℚ → List Glyph
  | [], _, _ => []
  | c :: rest, x, y =>
    if c = '\n' then
      layoutGo opts measure maxX rest opts.marginX (y + opts.lineHeight)
    else
      let w := measure c
      if maxX < x + w then
        ⟨c, opts.marginX, y + opts.lineHeight⟩ ::
          layoutGo opts measure maxX rest (opts.marginX + w + 2) (y + opts.lineHeight)
      else
        ⟨c, x, y⟩ :: layoutGo opts measure maxX rest (x + w + 2) y

/-- The `computeLayout(text, width, opts)` static method: cursor starts at
`(marginX, marginY)`, right edge is `maxX = width - marginX`. -/
def computeLayout (text : List Char) (width : ℚ) (opts : InternalOptions)
    (measure : Char → ℚ) : List Glyph :=
  layoutGo opts measure (width - opts.marginX) text opts.marginX opts.marginY

/-- The compositor `renderBuffers`: glyph at sequence index `i` is painted
into buffer A when `i % 2 === 0`, else into buffer B.  The result is the
pair (glyphs painted into A, glyphs painted into B), in paint order. -/
def renderBuffers (layout : List Glyph) : List Glyph × List Glyph :=
  ((layout.enum.filter (fun p => p.1 % 2 == 0)).map Prod.snd,
   (layout.enum.filter (fun p => p.1 % 2 != 0)).map Prod.snd)

/-- One painting command issued to the output surface: a glyph drawn with a
given fill style and global alpha. -/
structure PaintOp where
  glyph : Glyph
  fill : String
  alpha : ℚ
  deriving Repr, DecidableEq

/-- The fill style hard-coded by `renderStatic` (`this.ctx.fillStyle =
"#ffffff"`). -/
def staticFill : String := "#ffffff"

/-- The fallback painter `renderStatic`: paints every glyph of the layout
once onto the output surface with the hard-coded opaque white fill; the
main context's `globalAlpha` is never changed from its default `1`. -/
def renderStatic (layout : List Glyph) : List PaintOp :=
  layout.map (fun g => ⟨g, staticFill, 1⟩)

/-- The mutable schedule fields of a `TemporalFusionText` instance:
`parity` (`false` for `0`, `true` for `1`), `lastSwap`, `swapInterval`. -/
structure ScheduleState where
  parity : Bool
  lastSwap : ℚ
  swapInterval : ℚ
  deriving Repr, DecidableEq

/-- Which offscreen buffer a tick blits to the visible canvas. -/
inductive Buf where
  | A
  | B
  deriving Repr, DecidableEq

/-- One invocation of the `loop` callback at timestamp `now`: toggle parity
and record `now` when `now - lastSwap >= swapInterval`, then blit buffer B
when the (post-check) parity is `1`, else buffer A. -/
def loopStep (s : ScheduleState) (now : ℚ) : ScheduleState × Buf :=
  let s' :=
    if s.swapInterval ≤ now - s.lastSwap then
      { s with parity := !s.parity, lastSwap := now }
    else s
  (s', if s'.parity then Buf.B else Buf.A)

/-- Folding the swap loop over a list of frame timestamps. -/
def runTicks (s : ScheduleState) (ts : List ℚ) : ScheduleState :=
  ts.foldl (fun st t => (loopStep st t).1) s

/-- Outcome of `run()`: either the static fallback (resolved boolean
`false`, the listed paint commands issued once, no loop started) or fusion
mode (resolved boolean `true`, swap loop started from the given state). -/
inductive RunOutcome where
  | static (painted : List PaintOp)
  | fusing (s : ScheduleState)
  deriving Repr, DecidableEq

/-- The boolean the returned promise resolves with. -/
def RunOutcome.isFusing : RunOutcome → Bool
  | .static _ => false
  | .fusing _ => true

/-- The `run()` method after `detectRefresh` resolved to `refresh`:
`safeHz = refresh * 2`; static fallback when `safeHz < minSafeHz` or the
host reports reduced motion, else `swapInterval = 1000 / safeHz` and the
loop starts with the constructor-initialised `parity = 0`, `lastSwap = 0`. -/
def run (opts : InternalOptions) (layout : List Glyph) (refresh : ℚ)
    (reducedMotion : Bool) : RunOutcome :=
  let safeHz := refresh * 2
  if safeHz < opts.minSafeHz || reducedMotion then
    .static (renderStatic layout)
  else
    .fusing ⟨false, 0, 1000 / safeHz⟩

/-- The per-paragraph canvas-height computation of
`renderTemporalFusionParagraphs`: `Math.max(...layout.map(c => c.y))`
(which is `-Infinity`, modelled by `⊥`, on an empty layout) plus
`lineHeight` plus `marginY`. -/
def paragraphHeight (text : List Char) (width : ℚ) (opts : InternalOptions)
    (measure : Char → ℚ) : WithBot ℚ :=
  let layout := computeLayout text width opts measure
  (layout.map (fun g => ((g.y : ℚ) : WithBot ℚ))).foldr max ⊥
    + (opts.lineHeight : WithBot ℚ) + (opts.marginY : WithBot ℚ)

mutual

/-- Even-indexed elements of a list. -/
def evens {α : Type} : List α → List α
  | [] => []
  | a :: l => a :: odds l

/-- Odd-indexed elements of a list. -/
def odds {α : Type} : List α → List α
  | [] => []
  | _ :: l => evens l

end

/-- Glyphs of the end-to-end example (C4): `marginX = 10`, `marginY = 10`,
`lineHeight = 20`, other fields default. -/
def exampleOpts : InternalOptions :=
  { DEFAULT_OPTIONS with marginX := 10, marginY := 10, lineHeight := 20 }

/-- Default minimum safe frequency is at or below twice a 60 Hz refresh. -/
lemma default_minSafeHz_le : DEFAULT_OPTIONS.minSafeHz ≤ 2 * (60 : ℚ) := by
  norm_num [DEFAULT_OPTIONS]

/-- C1: for every measured refresh rate `r`, minimum safe frequency `m`, and
reduced-motion flag, `run()` selects Fusing mode (returns `true`) iff
`2r ≥ m` and reduced-motion is `false`; otherwise it selects Static mode,
painting the static fallback and returning `false`. -/
theorem mode_decision_boundary (opts : InternalOptions) (layout : List Glyph)
    (r : ℚ) (reduced : Bool) :
    ((run opts layout r reduced).isFusing = true ↔
      opts.minSafeHz ≤ 2 * r ∧ reduced = false) ∧
    ((run opts layout r reduced).isFusing = false →
      run opts layout r reduced = .static (renderStatic layout)) := by
  unfold run
  constructor
  · by_cases h1 : r * 2 < opts.minSafeHz <;> cases reduced <;>
      simp [h1, RunOutcome.isFusing] <;> try linarith
  · by_cases h1 : r * 2 < opts.minSafeHz <;> cases reduced <;>
      simp [h1, RunOutcome.isFusing]

/-- C1 witness: at refresh 60 Hz with default config and no reduced-motion
preference, fusion mode is selected. -/
theorem mode_decision_boundary_witness :
    (run DEFAULT_OPTIONS [] 60 false).isFusing = true :=
  (mode_decision_boundary DEFAULT_OPTIONS [] 60 false).1.mpr
    ⟨default_minSafeHz_le, rfl⟩

/-- C2: on a tick at timestamp `now`, the loop toggles parity and sets
`lastSwap` to `now` iff `now - lastSwap ≥ swapInterval` (greater-or-equal
tie-break); parity moves by at most one state per tick; after the check the
tick blits buffer A when parity is `0` and buffer B when parity is `1`. -/
theorem swap_loop_step_spec (s : ScheduleState) (now : ℚ) :
    (s.swapInterval ≤ now - s.lastSwap →
      (loopStep s now).1 = ⟨!s.parity, now, s.swapInterval⟩) ∧
    (now - s.lastSwap < s.swapInterval → (loopStep s now).1 = s) ∧
    ((loopStep s now).1.parity = s.parity ∨
      (loopStep s now).1.parity = !s.parity) ∧
    ((loopStep s now).2 = Buf.A ↔ (loopStep s now).1.parity = false) ∧
    ((loopStep s now).2 = Buf.B ↔ (loopStep s now).1.parity = true) := by
  unfold loopStep
  by_cases h : s.swapInterval ≤ now - s.lastSwap
  · simp [h]
  · simp [h, not_le.mp h]

/-- C2 witness: with `swapInterval = 0` and `lastSwap = 0`, the tick at
`now = 0` meets the greater-or-equal check, toggles parity from `0` to `1`,
and blits buffer B. -/
theorem swap_loop_step_spec_witness :
    (loopStep ⟨false, 0, 0⟩ 0).1 = ⟨true, 0, 0⟩ ∧
    ((loopStep ⟨false, 0, 0⟩ 0).2 = Buf.B ↔
      (loopStep ⟨false, 0, 0⟩ 0).1.parity = true) :=
  ⟨(swap_loop_step_spec ⟨false, 0, 0⟩ 0).1 (by simp),
   (swap_loop_step_spec ⟨false, 0, 0⟩ 0).2.2.2.2⟩

/-- Concrete activation used as witness input: refresh 60 Hz, default
config, no reduced-motion preference. -/
lemma run_default_60 :
    run DEFAULT_OPTIONS [] 60 false = .fusing ⟨false, 0, 1000 / (60 * 2)⟩ := by
  unfold run
  norm_num [DEFAULT_OPTIONS]

/-- A single tick of the swap loop never changes the swap interval. -/
lemma loopStep_swapInterval (s : ScheduleState) (t : ℚ) :
    (loopStep s t).1.swapInterval = s.swapInterval := by
  unfold loopStep
  by_cases hc : s.swapInterval ≤ t - s.lastSwap <;> simp [hc]

/-- No sequence of swap-loop ticks changes the swap interval. -/
lemma runTicks_swapInterval (s : ScheduleState) (ts : List ℚ) :
    (runTicks s ts).swapInterval = s.swapInterval := by
  induction ts generalizing s with
  | nil => rfl
  | cons t ts ih =>
    have hstep := loopStep_swapInterval s t
    calc (runTicks s (t :: ts)).swapInterval
        = (runTicks (loopStep s t).1 ts).swapInterval := rfl
      _ = (loopStep s t).1.swapInterval := ih (loopStep s t).1
      _ = s.swapInterval := hstep

/-- C6: when Fusing mode is entered with measured refresh rate `r`, the swap
interval is exactly `1000 / (2r)` milliseconds, and no tick of the swap loop
ever changes it. -/
theorem swap_interval_fixed (opts : InternalOptions) (layout : List Glyph)
    (r : ℚ) (reduced : Bool) (s : ScheduleState)
    (h : run opts layout r reduced = .fusing s) :
    s.swapInterval = 1000 / (2 * r) ∧
    ∀ ts : List ℚ, (runTicks s ts).swapInterval = s.swapInterval := by
  constructor
  · unfold run at h
    by_cases hc : r * 2 < opts.minSafeHz || reduced
    · simp [hc] at h
    · simp [hc] at h
      rw [← h]
      show (1000 : ℚ) / (r * 2) = 1000 / (2 * r)
      rw [mul_comm]
  · exact fun ts => runTicks_swapInterval s ts

/-- C6 witness: activating at 60 Hz yields swap interval `1000/120` ms and
three ticks later it is unchanged. -/
theorem swap_interval_fixed_witness :
    (⟨false, 0, 1000 / (60 * 2)⟩ : ScheduleState).swapInterval = 1000 / (2 * 60) ∧
    (runTicks ⟨false, 0, 1000 / (60 * 2)⟩ [0, 10, 20]).swapInterval
      = (⟨false, 0, 1000 / (60 * 2)⟩ : ScheduleState).swapInterval :=
  ⟨(swap_interval_fixed DEFAULT_OPTIONS [] 60 false _ run_default_60).1,
   (swap_interval_fixed DEFAULT_OPTIONS [] 60 false _ run_default_60).2 [0, 10, 20]⟩

/-- When the resolved boolean is `false`, `run` took the static branch. -/
lemma run_static_of_not_fusing (opts : InternalOptions) (layout : List Glyph)
    (r : ℚ) (reduced : Bool)
    (h : (run opts layout r reduced).isFusing = false) :
    run opts layout r reduced = .static (renderStatic layout) := by
  unfold run at h ⊢
  by_cases hc : (r * 2 < opts.minSafeHz || reduced) = true
  · simp [hc]
  · simp [hc, RunOutcome.isFusing] at h

/-- Concrete static activation used as witness input: refresh 50 Hz gives
`safeHz = 100 < 120`. -/
lemma run_default_50 :
    (run DEFAULT_OPTIONS [⟨'A', 40, 36⟩] 50 false).isFusing = false := by
  unfold run
  norm_num [DEFAULT_OPTIONS, RunOutcome.isFusing]

/-- C7: whenever Static mode is selected, the output surface is painted once
with the full un-split glyph sequence — every glyph of the layout appears
exactly once, in order — using the fixed fully opaque white fill (distinct
from the default fusion color and opacity), no swap loop is started (the
outcome is the `static` one), and the caller receives `false`. -/
theorem static_fallback_spec (opts : InternalOptions) (layout : List Glyph)
    (r : ℚ) (reduced : Bool)
    (h : (run opts layout r reduced).isFusing = false) :
    run opts layout r reduced = .static (renderStatic layout) ∧
    (renderStatic layout).map PaintOp.glyph = layout ∧
    (∀ p ∈ renderStatic layout, p.fill = staticFill ∧ p.alpha = 1) ∧
    staticFill ≠ DEFAULT_OPTIONS.color ∧ ((1 : ℚ) ≠ DEFAULT_OPTIONS.opacity) := by
  refine ⟨run_static_of_not_fusing opts layout r reduced h, ?_, ?_, ?_, ?_⟩
  · show List.map PaintOp.glyph (List.map (fun g => ⟨g, staticFill, 1⟩) layout) = layout
    rw [List.map_map]
    exact List.map_id layout
  · intro p hp
    simp only [renderStatic, List.mem_map] at hp
    obtain ⟨g, _, rfl⟩ := hp
    exact ⟨rfl, rfl⟩
  · decide
  · norm_num [DEFAULT_OPTIONS]

/-- C7 witness: at refresh 50 Hz with default config, the single-glyph
layout is painted statically in full and the outcome is the static one. -/
theorem static_fallback_spec_witness :
    run DEFAULT_OPTIONS [⟨'A', 40, 36⟩] 50 false
      = .static (renderStatic [⟨'A', 40, 36⟩]) ∧
    (renderStatic [⟨'A', 40, 36⟩]).map PaintOp.glyph = [⟨'A', 40, 36⟩] :=
  ⟨(static_fallback_spec DEFAULT_OPTIONS [⟨'A', 40, 36⟩] 50 false run_default_50).1,
   (static_fallback_spec DEFAULT_OPTIONS [⟨'A', 40, 36⟩] 50 false run_default_50).2.1⟩

/-- C9 (amended): the constructor merges the caller-supplied partial config
over the defaults field-by-field, and the resolved config satisfies
`opacity ∈ [0,1]` and all spatial fields `≥ 0` provided the caller-supplied
values themselves satisfy those bounds (the defaults do; the code never
validates caller values). -/
theorem config_merge_invariant (o : FusionOptions)
    (hop : ∀ v, o.opacity = some v → 0 ≤ v ∧ v ≤ 1)
    (hmx : ∀ v, o.marginX = some v → 0 ≤ v)
    (hmy : ∀ v, o.marginY = some v → 0 ≤ v)
    (hlh : ∀ v, o.lineHeight = some v → 0 ≤ v) :
    ((∀ v, o.font = some v → (resolveOptions o).font = v) ∧
     (o.font = none → (resolveOptions o).font = DEFAULT_OPTIONS.font)) ∧
    ((∀ v, o.color = some v → (resolveOptions o).color = v) ∧
     (o.color = none → (resolveOptions o).color = DEFAULT_OPTIONS.color)) ∧
    ((∀ v, o.opacity = some v → (resolveOptions o).opacity = v) ∧
     (o.opacity = none → (resolveOptions o).opacity = DEFAULT_OPTIONS.opacity)) ∧
    ((∀ v, o.minSafeHz = some v → (resolveOptions o).minSafeHz = v) ∧
     (o.minSafeHz = none → (resolveOptions o).minSafeHz = DEFAULT_OPTIONS.minSafeHz)) ∧
    ((∀ v, o.marginX = some v → (resolveOptions o).marginX = v) ∧
     (o.marginX = none → (resolveOptions o).marginX = DEFAULT_OPTIONS.marginX)) ∧
    ((∀ v, o.marginY = some v → (resolveOptions o).marginY = v) ∧
     (o.marginY = none → (resolveOptions o).marginY = DEFAULT_OPTIONS.marginY)) ∧
    ((∀ v, o.lineHeight = some v → (resolveOptions o).lineHeight = v) ∧
     (o.lineHeight = none → (resolveOptions o).lineHeight = DEFAULT_OPTIONS.lineHeight)) ∧
    (0 ≤ (resolveOptions o).opacity ∧ (resolveOptions o).opacity ≤ 1) ∧
    0 ≤ (resolveOptions o).marginX ∧ 0 ≤ (resolveOptions o).marginY ∧
    0 ≤ (resolveOptions o).lineHeight := by
  refine ⟨⟨fun v hv => by simp [resolveOptions, hv],
           fun hv => by simp [resolveOptions, hv]⟩,
          ⟨fun v hv => by simp [resolveOptions, hv],
           fun hv => by simp [resolveOptions, hv]⟩,
          ⟨fun v hv => by simp [resolveOptions, hv],
           fun hv => by simp [resolveOptions, hv]⟩,
          ⟨fun v hv => by simp [resolveOptions, hv],
           fun hv => by simp [resolveOptions, hv]⟩,
          ⟨fun v hv => by simp [resolveOptions, hv],
           fun hv => by simp [resolveOptions, hv]⟩,
          ⟨fun v hv => by simp [resolveOptions, hv],
           fun hv => by simp [resolveOptions, hv]⟩,
          ⟨fun v hv => by simp [resolveOptions, hv],
           fun hv => by simp [resolveOptions, hv]⟩, ?_, ?_, ?_, ?_⟩
  · rcases hov : o.opacity with _ | v
    · simp only [resolveOptions, hov, Option.getD_none]
      norm_num [DEFAULT_OPTIONS]
    · simpa [resolveOptions, hov] using hop v hov
  · rcases hov : o.marginX with _ | v
    · simp only [resolveOptions, hov, Option.getD_none]
      norm_num [DEFAULT_OPTIONS]
    · simpa [resolveOptions, hov] using hmx v hov
  · rcases hov : o.marginY with _ | v
    · simp only [resolveOptions, hov, Option.getD_none]
      norm_num [DEFAULT_OPTIONS]
    · simpa [resolveOptions, hov] using hmy v hov
  · rcases hov : o.lineHeight with _ | v
    · simp only [resolveOptions, hov, Option.getD_none]
      norm_num [DEFAULT_OPTIONS]
    · simpa [resolveOptions, hov] using hlh v hov

/-- Concrete partial config used in the C9 witness. -/
def sampleConfig : FusionOptions :=
  { opacity := some 1, marginX := some 5, marginY := some 0,
    lineHeight := some 20 }

/-- C9 witness: merging a partial config with in-range values keeps the
supplied opacity and satisfies the invariant. -/
theorem config_merge_invariant_witness :
    ((resolveOptions sampleConfig).opacity = 1) ∧
    (0 ≤ (resolveOptions sampleConfig).opacity ∧
      (resolveOptions sampleConfig).opacity ≤ 1) ∧
    0 ≤ (resolveOptions sampleConfig).marginX :=
  have h := config_merge_invariant sampleConfig
    (fun v hv => Option.some.inj hv ▸
      (by decide : (0:ℚ) ≤ 1 ∧ (1:ℚ) ≤ 1))
    (fun v hv => Option.some.inj hv ▸ (by decide : (0:ℚ) ≤ 5))
    (fun v hv => Option.some.inj hv ▸ (by decide : (0:ℚ) ≤ 0))
    (fun v hv => Option.some.inj hv ▸ (by decide : (0:ℚ) ≤ 20))
  ⟨h.2.2.1.1 1 rfl, h.2.2.2.2.2.2.2.1, h.2.2.2.2.2.2.2.2.1⟩

/-- C9 counterexample: the claim's unconditional invariant is false — a
caller-supplied opacity of `2` is merged through unvalidated, so the
resolved config violates `opacity ≤ 1`. -/
theorem config_merge_invariant_cex :
    (resolveOptions { opacity := some 2 }).opacity = 2 ∧
    ¬((resolveOptions { opacity := some 2 }).opacity ≤ 1) := by
  constructor
  · simp [resolveOptions]
  · simp only [resolveOptions, Option.getD_some]
    norm_num

/-- C10: when the layout of a paragraph is empty, the canvas height
computed by `renderTemporalFusionParagraphs` is `Math.max` of an empty list
(`-Infinity`, modelled by `⊥`) plus finite terms, hence non-finite; the
function returns it without raising any error. -/
theorem empty_paragraph_height_bot (text : List Char) (width : ℚ)
    (opts : InternalOptions) (measure : Char → ℚ)
    (h : computeLayout text width opts measure = []) :
    paragraphHeight text width opts measure = ⊥ := by
  unfold paragraphHeight
  rw [h]
  simp

/-- C10 witness: a newline-only paragraph has an empty layout and a
non-finite computed height. -/
theorem empty_paragraph_height_bot_witness :
    paragraphHeight "\n".data 800 DEFAULT_OPTIONS (fun _ => 10) = ⊥ :=
  empty_paragraph_height_bot "\n".data 800 DEFAULT_OPTIONS (fun _ => 10) (by rfl)

/-- Filtering an enumeration that starts at `n` by index parity keeps the
even-positioned (resp. odd-positioned) elements, according to the parity of
`n`. -/
lemma enumFrom_filter_parity {α : Type} (l : List α) : ∀ n : ℕ,
    (((List.enumFrom n l).filter (fun p => p.1 % 2 == 0)).map Prod.snd
      = if n % 2 = 0 then evens l else odds l) ∧
    (((List.enumFrom n l).filter (fun p => p.1 % 2 != 0)).map Prod.snd
      = if n % 2 = 0 then odds l else evens l) := by
  induction l with
  | nil =>
    intro n
    simp [evens, odds]
  | cons a l ih =>
    intro n
    by_cases hn : n % 2 = 0
    · have hn1 : (n + 1) % 2 = 1 := by omega
      have ih2 := (ih (n + 1)).2
      simp [hn1] at ih2
      constructor
      · simp [List.filter_cons, hn, hn1, (ih (n + 1)).1, evens]
      · simpa [List.filter_cons, hn, odds] using ih2
    · have hn' : n % 2 = 1 := by omega
      have hn1 : (n + 1) % 2 = 0 := by omega
      have ih2 := (ih (n + 1)).2
      simp [hn1] at ih2
      constructor
      · simp [List.filter_cons, hn', hn1, (ih (n + 1)).1, odds]
      · simpa [List.filter_cons, hn', evens] using ih2

/-- The two compositor buffers are exactly the even- and odd-indexed
sublists of the layout. -/
lemma renderBuffers_eq (l : List Glyph) :
    renderBuffers l = (evens l, odds l) := by
  have h := enumFrom_filter_parity l 0
  unfold renderBuffers
  rw [List.enum]
  exact Prod.ext (by simpa using h.1) (by simpa using h.2)

/-- Lengths of the even/odd-index sublists: ceiling and floor of `n / 2`. -/
lemma evens_odds_length {α : Type} (l : List α) :
    (evens l).length = (l.length + 1) / 2 ∧ (odds l).length = l.length / 2 := by
  induction l with
  | nil => simp [evens, odds]
  | cons a l ih =>
    constructor
    · simp only [evens, List.length_cons, ih.2]
      omega
    · simp only [odds, List.length_cons, ih.1]

/-- Element `i` of the even sublist is element `2i` of the original list;
element `i` of the odd sublist is element `2i + 1`. -/
lemma evens_odds_getElem {α : Type} (l : List α) : ∀ i : ℕ,
    (evens l)[i]? = l[2 * i]? ∧ (odds l)[i]? = l[2 * i + 1]? := by
  induction l with
  | nil =>
    intro i
    simp [evens, odds]
  | cons a l ih =>
    intro i
    constructor
    · cases i with
      | zero => simp [evens]
      | succ j =>
        have hj := (ih j).2
        calc (evens (a :: l))[j + 1]? = (odds l)[j]? := by simp [evens]
          _ = l[2 * j + 1]? := hj
          _ = (a :: l)[2 * (j + 1)]? := by
              rw [show 2 * (j + 1) = (2 * j + 1) + 1 by omega,
                  List.getElem?_cons_succ]
    · have hi := (ih i).1
      calc (odds (a :: l))[i]? = (evens l)[i]? := by simp [odds]
        _ = l[2 * i]? := hi
        _ = (a :: l)[2 * i + 1]? := by rw [List.getElem?_cons_succ]

/-- C3: for every layout of length `n`, the glyphs painted into the two
render targets partition the index range `[0, n)` with no overlap and no
omission — target A holds exactly the even-indexed glyphs
(`⌈n/2⌉ = (n+1)/2` of them), target B exactly the odd-indexed glyphs
(`⌊n/2⌋ = n/2`): A's `i`-th paint is glyph `2i`, B's `i`-th paint is glyph
`2i+1`, and conversely every glyph index `j` is painted by exactly the
buffer matching its parity, at position `j/2`. -/
theorem buffer_partition (l : List Glyph) :
    (renderBuffers l).1.length = (l.length + 1) / 2 ∧
    (renderBuffers l).2.length = l.length / 2 ∧
    (∀ i : ℕ, (renderBuffers l).1[i]? = l[2 * i]?) ∧
    (∀ i : ℕ, (renderBuffers l).2[i]? = l[2 * i + 1]?) ∧
    (∀ j : ℕ, j % 2 = 0 → l[j]? = (renderBuffers l).1[j / 2]?) ∧
    (∀ j : ℕ, j % 2 = 1 → l[j]? = (renderBuffers l).2[j / 2]?) := by
  rw [renderBuffers_eq]
  refine ⟨(evens_odds_length l).1, (evens_odds_length l).2,
          fun i => (evens_odds_getElem l i).1,
          fun i => (evens_odds_getElem l i).2, ?_, ?_⟩
  · intro j hj
    rw [(evens_odds_getElem l (j / 2)).1, show 2 * (j / 2) = j by omega]
  · intro j hj
    rw [(evens_odds_getElem l (j / 2)).2, show 2 * (j / 2) + 1 = j by omega]

/-- C3 witness: on a three-glyph layout, buffer A has two glyphs, buffer B
one, and glyph index 2 (even) is painted by buffer A at position 1. -/
theorem buffer_partition_witness :
    (renderBuffers [⟨'a', 0, 0⟩, ⟨'b', 1, 0⟩, ⟨'c', 2, 0⟩]).1.length = 2 ∧
    ([⟨'a', 0, 0⟩, ⟨'b', 1, 0⟩, ⟨'c', 2, 0⟩] : List Glyph)[2]?
      = (renderBuffers [⟨'a', 0, 0⟩, ⟨'b', 1, 0⟩, ⟨'c', 2, 0⟩]).1[1]? :=
  ⟨(buffer_partition [⟨'a', 0, 0⟩, ⟨'b', 1, 0⟩, ⟨'c', 2, 0⟩]).1,
   (buffer_partition [⟨'a', 0, 0⟩, ⟨'b', 1, 0⟩, ⟨'c', 2, 0⟩]).2.2.2.2.1 2 rfl⟩

/-- The layout loop emits one glyph per non-newline character, in source
order, for every width-measurement function whatsoever. -/
lemma layoutGo_map_ch (opts : InternalOptions) (measure : Char → ℚ)
    (maxX : ℚ) : ∀ (cs : List Char) (x y : ℚ),
    (layoutGo opts measure maxX cs x y).map Glyph.ch
      = cs.filter (fun c => c != '\n') := by
  intro cs
  induction cs with
  | nil =>
    intro x y
    simp [layoutGo]
  | cons c rest ih =>
    intro x y
    by_cases hc : c = '\n'
    · subst hc
      simp [layoutGo, List.filter_cons, ih]
    · simp only [layoutGo, if_neg hc]
      by_cases hw : maxX < x + measure c
      · simp [if_pos hw, List.filter_cons, hc, ih]
      · simp [if_neg hw, List.filter_cons, hc, ih]

/-- C8 (amended): for every text and every width-measurement function —
including ones returning non-positive values for some glyph — the layout
still places every non-newline character, in order (no glyph and no
paragraph is dropped); but the cursor advances by the raw measured width
plus the gap, with no clamping of anomalous widths to zero. -/
theorem measurement_anomaly_placement (text : List Char) (width : ℚ)
    (opts : InternalOptions) (measure : Char → ℚ) :
    (computeLayout text width opts measure).map Glyph.ch
      = text.filter (fun c => c != '\n') :=
  layoutGo_map_ch opts measure (width - opts.marginX) text
    opts.marginX opts.marginY

/-- C8 counterexample: with `marginX = 0` and a measured width of `-6` for
`'a'`, the glyph `'b'` that follows is placed at `x = -4`, not at the
`x = 0 + 0 + 2 = 2` that zero-width treatment of the anomalous glyph would
give: the anomalous width is used as-is, not treated as zero. -/
theorem measurement_anomaly_cex :
    computeLayout ['a', 'b'] 1000 { DEFAULT_OPTIONS with marginX := 0 }
        (fun c => if c = 'a' then -6 else 10)
      = [⟨'a', 0, 36⟩, ⟨'b', -4, 36⟩] ∧ ((-4 : ℚ) ≠ 0 + 0 + 2) := by
  constructor
  · norm_num [computeLayout, layoutGo, DEFAULT_OPTIONS]
    decide
  · norm_num

/-- C4: for the text `"AB\nC"` with `marginX = 10`, `marginY = 10`,
`lineHeight = 20`, every glyph advance width `10` and gap `2`, on any
surface wide enough that no auto-wrap occurs (`width ≥ 42`),
`computeLayout` produces exactly `[{A,10,10},{B,22,10},{C,10,30}]`, and the
compositor assigns `A` and `C` to target A and `B` to target B. -/
theorem layout_example_ABC (width : ℚ) (hw : 42 ≤ width) :
    computeLayout "AB\nC".data width exampleOpts (fun _ => 10)
      = [⟨'A', 10, 10⟩, ⟨'B', 22, 10⟩, ⟨'C', 10, 30⟩] ∧
    renderBuffers (computeLayout "AB\nC".data width exampleOpts (fun _ => 10))
      = ([⟨'A', 10, 10⟩, ⟨'C', 10, 30⟩], [⟨'B', 22, 10⟩]) := by
  have hd : "AB\nC".data = ['A', 'B', '\n', 'C'] := rfl
  have c1 : ¬(width - 10 < 10 + 10) := by linarith
  have c2 : ¬(width - 10 < 10 + 10 + 2 + 10) := by linarith
  have h1 : computeLayout "AB\nC".data width exampleOpts (fun _ => 10)
      = [⟨'A', 10, 10⟩, ⟨'B', 22, 10⟩, ⟨'C', 10, 30⟩] := by
    rw [hd]
    unfold computeLayout
    simp only [layoutGo, exampleOpts, DEFAULT_OPTIONS]
    simp [c1, c2]
    norm_num
  refine ⟨h1, ?_⟩
  rw [h1, renderBuffers_eq]
  simp [evens, odds]

/-- C4 witness: the example evaluated on a 100-unit-wide surface. -/
theorem layout_example_ABC_witness :
    ((42 : ℚ) ≤ 100) ∧
    computeLayout "AB\nC".data 100 exampleOpts (fun _ => 10)
      = [⟨'A', 10, 10⟩, ⟨'B', 22, 10⟩, ⟨'C', 10, 30⟩] ∧
    renderBuffers (computeLayout "AB\nC".data 100 exampleOpts (fun _ => 10))
      = ([⟨'A', 10, 10⟩, ⟨'C', 10, 30⟩], [⟨'B', 22, 10⟩]) :=
  ⟨by decide, (layout_example_ABC 100 (by decide)).1,
   (layout_example_ABC 100 (by decide)).2⟩

/-- Main wrap invariant: starting a uniform-width run of characters at
horizontal slot `j ≤ k` (where `k` satisfies
`k(w+2) ≤ (maxX - marginX) + 2 < (k+1)(w+2)`), the `i`-th emitted glyph
lands at slot `(j+i) mod k` of line `(j+i) div k` (counting lines from the
starting `y`). -/
lemma layoutGo_uniform (opts : InternalOptions) (measure : Char → ℚ)
    (maxX w : ℚ) (k : ℕ) (hw : 0 < w) (hk1 : 1 ≤ k)
    (hkl : (k : ℚ) * (w + 2) ≤ maxX - opts.marginX + 2)
    (hku : maxX - opts.marginX + 2 < ((k : ℚ) + 1) * (w + 2)) :
    ∀ (cs : List Char), (∀ c ∈ cs, c ≠ '\n' ∧ measure c = w) →
    ∀ (j : ℕ), j ≤ k → ∀ (y : ℚ) (i : ℕ),
    (layoutGo opts measure maxX cs (opts.marginX + (j : ℚ) * (w + 2)) y)[i]?
      = cs[i]?.map (fun c =>
          (⟨c, opts.marginX + (((j + i) % k : ℕ) : ℚ) * (w + 2),
              y + (((j + i) / k : ℕ) : ℚ) * opts.lineHeight⟩ : Glyph)) := by
  intro cs
  induction cs with
  | nil =>
    intro _ j hj y i
    simp [layoutGo]
  | cons c rest ih =>
    intro hcs j hj y i
    obtain ⟨hc, hcw⟩ := hcs c (List.mem_cons_self c rest)
    have hrest : ∀ c ∈ rest, c ≠ '\n' ∧ measure c = w :=
      fun c hcm => hcs c (List.mem_cons_of_mem _ hcm)
    simp only [layoutGo, if_neg hc, hcw]
    by_cases hjk : j < k
    · have hstep : (j : ℚ) * (w + 2) + (w + 2) ≤ (k : ℚ) * (w + 2) := by
        have hj1 : (j : ℚ) + 1 ≤ (k : ℚ) := by exact_mod_cast hjk
        nlinarith [hj1, hw]
      have hfit : ¬(maxX < opts.marginX + (j : ℚ) * (w + 2) + w) := by
        push_neg
        linarith
      rw [if_neg hfit]
      cases i with
      | zero =>
        have h1 : (j + 0) % k = j := by
          rw [Nat.add_zero, Nat.mod_eq_of_lt hjk]
        have h2 : (j + 0) / k = 0 := by
          rw [Nat.add_zero, Nat.div_eq_of_lt hjk]
        rw [h1, h2]
        simp
      | succ i' =>
        have hcur : opts.marginX + (j : ℚ) * (w + 2) + w + 2
            = opts.marginX + ((j + 1 : ℕ) : ℚ) * (w + 2) := by
          push_cast
          ring
        rw [List.getElem?_cons_succ, hcur, ih hrest (j + 1) (by omega) y i']
        rw [show j + 1 + i' = j + (i' + 1) from by omega,
            List.getElem?_cons_succ]
    · have hjk' : j = k := by omega
      rw [hjk']
      have hwrap : maxX < opts.marginX + (k : ℚ) * (w + 2) + w := by
        have hexp : ((k : ℚ) + 1) * (w + 2) = (k : ℚ) * (w + 2) + w + 2 := by
          ring
        linarith
      rw [if_pos hwrap]
      cases i with
      | zero =>
        rw [Nat.add_zero, Nat.mod_self, Nat.div_self (by omega : 0 < k)]
        simp
      | succ i' =>
        have hcur : opts.marginX + w + 2
            = opts.marginX + ((1 : ℕ) : ℚ) * (w + 2) := by
          push_cast
          ring
        rw [List.getElem?_cons_succ, hcur,
            ih hrest 1 hk1 (y + opts.lineHeight) i', List.getElem?_cons_succ]
        have hmod : (k + (i' + 1)) % k = (1 + i') % k := by
          rw [Nat.add_mod_left, Nat.add_comm 1 i']
        have hdiv : (k + (i' + 1)) / k = (1 + i') / k + 1 := by
          rw [Nat.add_div_left _ (by omega : 0 < k), Nat.add_comm 1 i']
        rcases hri : rest[i']? with _ | c2
        · rfl
        · simp only [Option.map_some', Option.some.injEq, Glyph.mk.injEq,
            true_and]
          constructor
          · rw [hmod]
          · rw [hdiv]
            push_cast
            ring

/-- C5 (amended): for a text whose glyphs all measure `w > 0`, laid out
with usable width `U = width - 2·marginX` and gap `2`, the number of glyphs
per line is the unique `k ≥ 1` with `k(w+2) ≤ U+2 < (k+1)(w+2)` — that is,
`⌊(U+gap)/(w+gap)⌋`, not the claim's `⌊U/(w+gap)⌋`: glyph `i` is placed at
slot `i mod k` of line `i div k`.  A glyph exactly filling the remaining
width does not wrap and one unit over forces a wrap, which is precisely why
the line capacity is `⌊(U+gap)/(w+gap)⌋`. -/
theorem wrap_glyphs_per_line (opts : InternalOptions) (measure : Char → ℚ)
    (w width : ℚ) (text : List Char) (k : ℕ)
    (hw : 0 < w) (hk1 : 1 ≤ k)
    (htext : ∀ c ∈ text, c ≠ '\n' ∧ measure c = w)
    (hkl : (k : ℚ) * (w + 2) ≤ width - 2 * opts.marginX + 2)
    (hku : width - 2 * opts.marginX + 2 < ((k : ℚ) + 1) * (w + 2)) :
    ∀ i : ℕ, (computeLayout text width opts measure)[i]?
      = text[i]?.map (fun c =>
          (⟨c, opts.marginX + ((i % k : ℕ) : ℚ) * (w + 2),
              opts.marginY + ((i / k : ℕ) : ℚ) * opts.lineHeight⟩ : Glyph)) := by
  intro i
  have hkl' : (k : ℚ) * (w + 2) ≤ (width - opts.marginX) - opts.marginX + 2 := by
    linarith
  have hku' : (width - opts.marginX) - opts.marginX + 2
      < ((k : ℚ) + 1) * (w + 2) := by
    linarith
  have h := layoutGo_uniform opts measure (width - opts.marginX) w k hw hk1
    hkl' hku' text htext 0 (by omega) opts.marginY i
  have hzero : opts.marginX + ((0 : ℕ) : ℚ) * (w + 2) = opts.marginX := by
    push_cast
    ring
  rw [hzero] at h
  simp only [Nat.zero_add] at h
  exact h

/-- Arithmetic fact for the C5 witness: `k = 2` satisfies the lower line
capacity bound at `w = 10`, `width = 42`, `marginX = 10`. -/
lemma wrap_witness_lower :
    ((2 : ℕ) : ℚ) * (10 + 2) ≤ 42 - 2 * 10 + 2 := by
  norm_num

/-- Arithmetic fact for the C5 witness: `k = 2` satisfies the upper line
capacity bound at `w = 10`, `width = 42`, `marginX = 10`. -/
lemma wrap_witness_upper :
    (42 : ℚ) - 2 * 10 + 2 < (((2 : ℕ) : ℚ) + 1) * (10 + 2) := by
  norm_num

/-- C5 witness: with `w = 10`, `width = 42` and the example margins, the
line capacity is `k = 2` and the third glyph (index 2) wraps to slot 0 of
line 1. -/
theorem wrap_glyphs_per_line_witness :
    (computeLayout ['A', 'A', 'A'] 42 exampleOpts (fun _ => 10))[2]?
      = (['A', 'A', 'A'] : List Char)[2]?.map (fun c =>
          (⟨c, exampleOpts.marginX + (((2 % 2 : ℕ)) : ℚ) * (10 + 2),
              exampleOpts.marginY
                + (((2 / 2 : ℕ)) : ℚ) * exampleOpts.lineHeight⟩ : Glyph)) :=
  wrap_glyphs_per_line exampleOpts (fun _ => 10) 10 42 ['A', 'A', 'A'] 2
    (by decide) (by decide) (by decide) wrap_witness_lower wrap_witness_upper 2

/-- C5 counterexample: at `w = 10`, `U = 22`, gap `2`, the first line holds
two glyphs (a glyph exactly filling the remaining width does not wrap), but
the claim's formula `⌊U/(w+gap)⌋ = ⌊22/12⌋` predicts one glyph per line. -/
theorem wrap_formula_cex :
    ((computeLayout ['A', 'A', 'A'] 42 exampleOpts (fun _ => 10)).filter
        (fun g => g.y == 10)).length = 2 ∧
    Nat.floor (((42 : ℚ) - 2 * 10) / (10 + 2)) = 1 ∧ (2 : ℕ) ≠ 1 := by
  refine ⟨?_, ?_, by decide⟩
  · norm_num [computeLayout, layoutGo, exampleOpts, DEFAULT_OPTIONS]
    decide
  · rw [Nat.floor_eq_iff (by norm_num)]
    norm_num
